import Mathlib

/-!
Shallow embedding of the `video_streamer` repository
(`play_video_vlc.py`, `play_video_vlc_no_chunk.py`).

Machine floats are modelled as exact rationals (`ℚ`); Python's `round`
(banker's rounding, ties to even) is modelled by `pyRound`.  The external
FFmpeg process is modelled as a sink environment that either fails to launch
(`FileNotFoundError` on `Popen`) or accepts a given number of frame writes
before raising `BrokenPipeError`.  Frame payloads are an abstract type `α`;
`process_frame` and `ndarray.tobytes()` are abstract functions.
-/

/-- Python `round` on an exact rational: round half to even (banker's
rounding), as CPython's `round(float)` behaves. -/
def pyRound (q : ℚ) : ℤ :=
  let f := q.floor
  if q - (f : ℚ) < 1/2 then f
  else if 1/2 < q - (f : ℚ) then f + 1
  else if f % 2 = 0 then f else f + 1

/-- `play_video_vlc.py` line 232:
`chunk_frame_count = max(1, int(round(fps * args.chunk_duration)))`. -/
def chunk_frame_count (fps chunkDuration : ℚ) : ℕ :=
  (max 1 (pyRound (fps * chunkDuration))).toNat

/-- `play_video_vlc.py` line 229 (same in `play_video_vlc_no_chunk.py` line 92):
`keyframe_interval = max(1, int(round(fps * 2.0)))`. -/
def keyframe_interval_of (fps : ℚ) : ℤ :=
  max 1 (pyRound (fps * 2))

/-- `fps = args.fps or capture.get(cv2.CAP_PROP_FPS) or 30.0`
(line 227).  Python `or` takes the right operand when the left is falsy
(`None` or `0.0`). -/
def resolveFps (argsFps : Option ℚ) (metaFps : ℚ) : ℚ :=
  let a : ℚ := match argsFps with | none => 0 | some f => f
  if a ≠ 0 then a else if metaFps ≠ 0 then metaFps else 30

/-- `stream_url = f"udp://{args.host}:{args.port}?pkt_size=1316"` (line 254). -/
def stream_url (host : String) (port : ℕ) : String :=
  "udp://" ++ host ++ ":" ++ toString port ++ "?pkt_size=1316"

/-- One token of an FFmpeg command line.  Numeric arguments keep their exact
value (`str()` of a float or int is injective on the values used here). -/
inductive Tok where
  | s (v : String)
  | q (v : ℚ)
  | n (v : ℤ)
  deriving DecidableEq

/-- The session-wide values `main` computes once and threads into
`send_chunk` / `build_chunk_ffmpeg_cmd` (lines 225–229, 254). -/
structure StreamParams where
  ffmpegPath : String
  audioPath : Option String
  width : ℕ
  height : ℕ
  fps : ℚ
  keyframeInterval : ℤ
  streamUrl : String
  deriving DecidableEq

/-- Lines 93–101: the raw-video stdin input arguments of
`build_chunk_ffmpeg_cmd` (`cmd = [args.ffmpeg_path, "-f", "rawvideo", ...]`). -/
def vidInArgs (p : StreamParams) : List Tok :=
  [Tok.s p.ffmpegPath,
   Tok.s "-f", Tok.s "rawvideo",
   Tok.s "-pix_fmt", Tok.s "bgr24",
   Tok.s "-video_size", Tok.s (toString p.width ++ "x" ++ toString p.height),
   Tok.s "-framerate", Tok.q p.fps,
   Tok.s "-i", Tok.s "pipe:0"]

/-- Lines 103–109: the audio input restricted to this chunk's interval
(`cmd += ["-ss", str(chunk_start_sec), "-t", str(chunk_duration_sec), "-i", args.audio_path]`
when an audio path is set, nothing otherwise). -/
def audInArgs (p : StreamParams) (chunkStartSec chunkDurationSec : ℚ) : List Tok :=
  match p.audioPath with
  | some ap =>
      [Tok.s "-ss", Tok.q chunkStartSec,
       Tok.s "-t", Tok.q chunkDurationSec,
       Tok.s "-i", Tok.s ap]
  | none => []

/-- Lines 111–114: stream mapping. -/
def mapArgs (p : StreamParams) : List Tok :=
  [Tok.s "-map", Tok.s "0:v:0"]
  ++ (match p.audioPath with
      | some _ => [Tok.s "-map", Tok.s "1:a:0"]
      | none => [])

/-- Lines 117–120: codec and latency settings. -/
def encBaseArgs : List Tok :=
  [Tok.s "-c:v", Tok.s "libx264",
   Tok.s "-preset", Tok.s "ultrafast",
   Tok.s "-tune", Tok.s "zerolatency"]

/-- Lines 121–122: the keyframe-interval arguments
(`"-g", str(keyframe_interval), "-keyint_min", str(keyframe_interval)`). -/
def gopArgs (p : StreamParams) : List Tok :=
  [Tok.s "-g", Tok.n p.keyframeInterval,
   Tok.s "-keyint_min", Tok.n p.keyframeInterval]

/-- Lines 123–125: forced keyframes at chunk start, cfr vsync, pixel format. -/
def encTailArgs : List Tok :=
  [Tok.s "-force_key_frames", Tok.s "expr:lt(n,3)",
   Tok.s "-vsync", Tok.s "cfr",
   Tok.s "-pix_fmt", Tok.s "yuv420p"]

/-- Lines 127–128: audio codec when an audio path is set. -/
def audCodecArgs (p : StreamParams) : List Tok :=
  match p.audioPath with
  | some _ => [Tok.s "-c:a", Tok.s "aac", Tok.s "-b:a", Tok.s "128k"]
  | none => []

/-- Line 132: the output timestamp offset argument
(`"-output_ts_offset", str(chunk_start_sec)`). -/
def tsOffsetArgs (chunkStartSec : ℚ) : List Tok :=
  [Tok.s "-output_ts_offset", Tok.q chunkStartSec]

/-- Lines 133–136: MPEG-TS muxer and destination URL. -/
def muxArgs (p : StreamParams) : List Tok :=
  [Tok.s "-f", Tok.s "mpegts",
   Tok.s "-mpegts_flags", Tok.s "resend_headers+initial_discontinuity",
   Tok.s p.streamUrl]

/-- `build_chunk_ffmpeg_cmd` (lines 82–137): the incremental `cmd += [...]`
statements of the source, in order. -/
def build_chunk_ffmpeg_cmd (p : StreamParams) (chunkStartSec chunkDurationSec : ℚ) :
    List Tok :=
  vidInArgs p
  ++ audInArgs p chunkStartSec chunkDurationSec
  ++ mapArgs p
  ++ encBaseArgs
  ++ gopArgs p
  ++ encTailArgs
  ++ audCodecArgs p
  ++ tsOffsetArgs chunkStartSec
  ++ muxArgs p

/-- Behaviour of the external FFmpeg process for one chunk: either `Popen`
raises `FileNotFoundError`, or the pipe accepts the first `cap` frame writes
and then raises `BrokenPipeError` (`cap = none`: every write succeeds). -/
inductive SinkEnv where
  | noExec
  | pipe (cap : Option ℕ)
  deriving DecidableEq

/-- The write loop of `send_chunk` (lines 186–198): write each frame's bytes
in order; on `BrokenPipeError` set `pipe_broken` and `break`.  Returns the
bytes the sink actually received and the `pipe_broken` flag. -/
def feedFrames (tobytes : α → β) : Option ℕ → List α → List β × Bool
  | _, [] => ([], false)
  | none, f :: fs =>
      let r := feedFrames tobytes none fs
      (tobytes f :: r.1, r.2)
  | some 0, _ :: _ => ([], true)
  | some (c + 1), f :: fs =>
      let r := feedFrames tobytes (some c) fs
      (tobytes f :: r.1, r.2)

/-- Observable outcome of one `send_chunk` call: the FFmpeg command built
and launched, the bytes written to its stdin, how many times stdin was
closed, whether the process was awaited (`proc.wait()`), and the boolean
return value of `send_chunk`. -/
structure SendResult (β : Type) where
  cmd : List Tok
  written : List β
  closeCount : ℕ
  waited : Bool
  ok : Bool
  deriving DecidableEq

/-- `send_chunk` (lines 140–208).  `chunk_duration_sec = len(frames) / fps`
(line 157); on `FileNotFoundError` it returns `False` having written nothing
(lines 164–172); otherwise it feeds the frames, closes stdin once
(lines 201–205), waits for the process (line 206) and returns
`not pipe_broken` (line 208). -/
def send_chunk (tobytes : α → β) (p : StreamParams) (sink : SinkEnv)
    (frames : List α) (chunkStartSec : ℚ) : SendResult β :=
  let chunkDurationSec : ℚ := (frames.length : ℚ) / p.fps
  let cmd := build_chunk_ffmpeg_cmd p chunkStartSec chunkDurationSec
  match sink with
  | SinkEnv.noExec => ⟨cmd, [], 0, false, false⟩
  | SinkEnv.pipe cap =>
      let fed := feedFrames tobytes cap frames
      ⟨cmd, fed.1, 1, true, !fed.2⟩

/-- One chunk as the scheduler builds it: 0-based index, start time
`chunk_start_sec = chunk_idx * args.chunk_duration` (line 262), and the
processed frames collected by the read loop (lines 263–269). -/
structure ChunkRec (α : Type) where
  idx : ℕ
  startSec : ℚ
  frames : List α
  deriving DecidableEq

/-- The chunked main loop (lines 259–293): read up to `k` frames applying
`process_frame`, stop on an empty read (`if not frames: break`), send the
chunk, and stop after the first failed send (`else: ... break`).  The fuel
argument (initially the number of remaining source frames) only serves
structural termination; each iteration with `k ≥ 1` consumes at least one
source frame. -/
def runChunksAux (tobytes : α → β) (process : α → α) (p : StreamParams)
    (chunkDuration : ℚ) (k : ℕ) (sink : ℕ → SinkEnv) :
    ℕ → ℕ → List α → List (ChunkRec α × SendResult β)
  | 0, _, _ => []
  | fuel + 1, idx, frames =>
      let chunkStartSec : ℚ := (idx : ℚ) * chunkDuration
      let cf : List α := (frames.take k).map process
      if cf.isEmpty then []
      else
        let c : ChunkRec α := ⟨idx, chunkStartSec, cf⟩
        let r := send_chunk tobytes p (sink idx) cf chunkStartSec
        if r.ok then
          (c, r) :: runChunksAux tobytes process p chunkDuration k sink fuel
            (idx + 1) (frames.drop k)
        else [(c, r)]

/-- The whole chunked streaming phase, started at `chunk_idx = 0` on the full
frame sequence of the source. -/
def runChunks (tobytes : α → β) (process : α → α) (p : StreamParams)
    (chunkDuration : ℚ) (k : ℕ) (sink : ℕ → SinkEnv) (frames : List α) :
    List (ChunkRec α × SendResult β) :=
  runChunksAux tobytes process p chunkDuration k sink frames.length 0 frames

/-- A sink that launches and never breaks the pipe. -/
def healthySink : ℕ → SinkEnv := fun _ => SinkEnv.pipe none

/-- The startup environment of `main`: what the filesystem, the capture and
the CLI provide.  `audioSampleWidth` is a property of the audio file on disk;
neither script ever reads it (no wave-header inspection exists in the code).
`interruptAfter = some j` models a `KeyboardInterrupt` raised inside the
`try` block after `j` chunk iterations. -/
structure Env where
  mediaOpens : Bool
  audioPath : Option String
  audioExists : Bool
  audioSampleWidth : ℕ
  width : ℕ
  height : ℕ
  argsFps : Option ℚ
  metaFps : ℚ
  host : String
  port : ℕ
  ffmpegPath : String
  chunkDuration : ℚ
  sink : ℕ → SinkEnv
  interruptAfter : Option ℕ

/-- Replace only the on-disk audio sample width of an environment. -/
def withSampleWidth (e : Env) (w : ℕ) : Env :=
  ⟨e.mediaOpens, e.audioPath, e.audioExists, w, e.width, e.height, e.argsFps,
   e.metaFps, e.host, e.port, e.ffmpegPath, e.chunkDuration, e.sink,
   e.interruptAfter⟩

/-- `main` of `play_video_vlc.py` (lines 211–305): the two startup checks
(lines 216–223) return 1; every other path — normal completion, a failed
chunk (line 293 `break`), and `KeyboardInterrupt` (line 295) — reaches
`return 0` (line 305).  The second component is the list of chunk sessions
actually launched. -/
def mainChunked (tobytes : α → β) (process : α → α) (env : Env)
    (frames : List α) : ℕ × List (ChunkRec α × SendResult β) :=
  if !env.mediaOpens then (1, [])
  else if env.audioPath.isSome && !env.audioExists then (1, [])
  else
    let fps := resolveFps env.argsFps env.metaFps
    let p : StreamParams :=
      ⟨env.ffmpegPath, env.audioPath, env.width, env.height, fps,
       keyframe_interval_of fps, stream_url env.host env.port⟩
    let k := chunk_frame_count fps env.chunkDuration
    let run := runChunks tobytes process p env.chunkDuration k env.sink frames
    (0, match env.interruptAfter with
        | none => run
        | some j => run.take j)

/-- Exit code of `main` in `play_video_vlc_no_chunk.py` (lines 75–196): the
same two startup checks return 1, a `FileNotFoundError` from the single
`Popen` returns 1 (lines 140–149), and every other path returns 0. -/
def mainNoChunkExit (env : Env) : ℕ :=
  if !env.mediaOpens then 1
  else if env.audioPath.isSome && !env.audioExists then 1
  else match env.sink 0 with
       | SinkEnv.noExec => 1
       | SinkEnv.pipe _ => 0

/-- State of the pacing loop: the monotonic clock and the next scheduled
emission time `next_frame_time`. -/
structure PacerState where
  clock : ℚ
  tNext : ℚ
  deriving DecidableEq

/-- One pacing step (lines 187–191 of `send_chunk`; lines 170–174 of the
no-chunk script): `sleep_time = next_frame_time - now`; sleep for that long
when positive; then `next_frame_time += frame_duration` unconditionally.
Returns the new state and the emission time of this frame. -/
def pacerEmit (T : ℚ) (s : PacerState) : PacerState × ℚ :=
  let now := s.clock
  let emitTime := if 0 < s.tNext - now then s.tNext else now
  (⟨emitTime, s.tNext + T⟩, emitTime)

/-- The pacing loop over a sequence of frames; `d` is the time the loop body
spends before frame `i`'s pacing check (acquisition, processing, the
previous write).  Returns the final state and the emission times. -/
def pacerRun (T : ℚ) (s : PacerState) : List ℚ → PacerState × List ℚ
  | [] => (s, [])
  | d :: ds =>
      let s1 : PacerState := ⟨s.clock + d, s.tNext⟩
      let step := pacerEmit T s1
      let rest := pacerRun T step.1 ds
      (rest.1, step.2 :: rest.2)

/-! ### Concrete instances used for witnesses and counterexamples -/

/-- The spec's reference configuration: 30 fps, default host/port. -/
def pDemo : StreamParams :=
  ⟨"ffmpeg", none, 640, 480, 30, keyframe_interval_of 30,
   stream_url "127.0.0.1" 5000⟩

/-- A minimal 1 fps configuration. -/
def pW : StreamParams := ⟨"f", none, 1, 1, 1, keyframe_interval_of 1, "u"⟩

/-- A minimal 2 fps configuration. -/
def pW4 : StreamParams := ⟨"f", none, 1, 1, 2, keyframe_interval_of 2, "u"⟩

/-- A minimal 2 fps configuration with an audio file. -/
def pAud : StreamParams :=
  ⟨"f", some "a.wav", 1, 1, 2, keyframe_interval_of 2, "u"⟩

/-- A 4 fps configuration (used with chunk duration 0.6 s). -/
def pC2cx : StreamParams := ⟨"f", none, 1, 1, 4, keyframe_interval_of 4, "u"⟩

/-- A sink whose first chunk's pipe breaks after 3 frame writes. -/
def sink4 : ℕ → SinkEnv :=
  fun i => if i = 0 then SinkEnv.pipe (some 3) else SinkEnv.pipe none

/-- A sink where the encoder executable is never found. -/
def sinkNoExec : ℕ → SinkEnv := fun _ => SinkEnv.noExec

/-- Two frames at 1 fps with 1 s chunks: two one-frame chunks. -/
def runW : List (ChunkRec ℕ × SendResult ℕ) :=
  runChunks id id pW 1 (chunk_frame_count 1 1) healthySink [0, 1]

/-- Thirteen frames at 2 fps with 5 s chunks (k = 10); the first chunk's
pipe breaks after 3 writes. -/
def run4 : List (ChunkRec ℕ × SendResult ℕ) :=
  runChunks id id pW4 5 (chunk_frame_count 2 5) sink4 (List.range 13)

/-- The expected first (and only) entry of `run4`. -/
def cr4 : ChunkRec ℕ × SendResult ℕ :=
  (⟨0, 0, [0, 1, 2, 3, 4, 5, 6, 7, 8, 9]⟩,
   ⟨build_chunk_ffmpeg_cmd pW4 0 5, [0, 1, 2], 1, true, false⟩)

/-- Thirteen frames at 2 fps with 5 s chunks and an audio file. -/
def run7 : List (ChunkRec ℕ × SendResult ℕ) :=
  runChunks id id pAud 5 (chunk_frame_count 2 5) healthySink (List.range 13)

/-- A startup environment whose audio file exists but has 8-bit samples. -/
def envAudio8 : Env :=
  ⟨true, some "a.wav", true, 8, 1, 1, none, 30, "h", 1, "f", 5, healthySink, none⟩

/-- A startup environment where the encoder executable is missing. -/
def envNoExec : Env :=
  ⟨true, none, true, 16, 1, 1, none, 30, "h", 1, "f", 5, sinkNoExec, none⟩

/-- A startup environment whose media file cannot be opened. -/
def envBadMedia : Env :=
  ⟨false, none, true, 16, 1, 1, none, 30, "h", 1, "f", 5, healthySink, none⟩

/-- A startup environment whose audio file does not exist. -/
def envMissingAudio : Env :=
  ⟨true, some "a.wav", false, 16, 1, 1, none, 30, "h", 1, "f", 5, healthySink, none⟩

/-- A startup environment with `--fps 0.2`. -/
def envSlowFps : Env :=
  ⟨true, none, true, 16, 1, 1, some (1/5), 30, "h", 1, "f", 5, healthySink, none⟩

/-! ### Basic lemmas about the embedded operations -/

theorem feedFrames_none (tobytes : α → β) (l : List α) :
    feedFrames tobytes none l = (l.map tobytes, false) := by
  induction l with
  | nil => rfl
  | cons f fs ih => simp [feedFrames, ih]

theorem feedFrames_some (tobytes : α → β) (c : ℕ) (l : List α) :
    feedFrames tobytes (some c) l =
      ((l.map tobytes).take c, decide (c < l.length)) := by
  induction l generalizing c with
  | nil => simp [feedFrames]
  | cons f fs ih =>
    cases c with
    | zero => simp [feedFrames]
    | succ c => simp [feedFrames, ih, Nat.succ_lt_succ_iff]

theorem send_chunk_noExec (tobytes : α → β) (p : StreamParams)
    (frames : List α) (ss : ℚ) :
    send_chunk tobytes p SinkEnv.noExec frames ss =
      ⟨build_chunk_ffmpeg_cmd p ss ((frames.length : ℚ) / p.fps),
       [], 0, false, false⟩ := rfl

theorem send_chunk_pipe (tobytes : α → β) (p : StreamParams) (cap : Option ℕ)
    (frames : List α) (ss : ℚ) :
    send_chunk tobytes p (SinkEnv.pipe cap) frames ss =
      ⟨build_chunk_ffmpeg_cmd p ss ((frames.length : ℚ) / p.fps),
       (feedFrames tobytes cap frames).1, 1, true,
       !(feedFrames tobytes cap frames).2⟩ := rfl

theorem runChunksAux_nil (tobytes : α → β) (process : α → α)
    (p : StreamParams) (cd : ℚ) (k : ℕ) (sink : ℕ → SinkEnv)
    (fuel idx : ℕ) :
    runChunksAux tobytes process p cd k sink fuel idx [] = [] := by
  cases fuel with
  | zero => rfl
  | succ fuel => simp [runChunksAux]

theorem run_mem_spec (tobytes : α → β) (process : α → α) (p : StreamParams)
    (cd : ℚ) (k : ℕ) (sink : ℕ → SinkEnv) :
    ∀ fuel idx frames,
      ∀ cr ∈ runChunksAux tobytes process p cd k sink fuel idx frames,
        cr.1.startSec = (cr.1.idx : ℚ) * cd ∧
        cr.1.frames ≠ [] ∧
        cr.1.frames.length ≤ k ∧
        cr.2 = send_chunk tobytes p (sink cr.1.idx) cr.1.frames cr.1.startSec := by
  intro fuel
  induction fuel with
  | zero =>
    intro idx frames cr hmem
    simp only [runChunksAux, List.not_mem_nil] at hmem
  | succ fuel ih =>
    intro idx frames cr hmem
    simp only [runChunksAux] at hmem
    split at hmem
    · exact absurd hmem (List.not_mem_nil cr)
    · rename_i he
      split at hmem
      · rcases List.mem_cons.mp hmem with hmem | hmem
        · subst hmem
          refine ⟨rfl, fun hnil => ?_, ?_, rfl⟩
          · simp only at hnil
            exact he (by rw [hnil]; rfl)
          · simp
        · exact ih _ _ _ hmem
      · rw [List.mem_singleton] at hmem
        subst hmem
        refine ⟨rfl, fun hnil => ?_, ?_, rfl⟩
        · simp only at hnil
          exact he (by rw [hnil]; rfl)
        · simp

theorem chunk_frame_count_pos (fps cd : ℚ) : 0 < chunk_frame_count fps cd := by
  unfold chunk_frame_count
  have h : (1 : ℤ) ≤ max 1 (pyRound (fps * cd)) := le_max_left _ _
  omega

theorem run_get?_idx (tobytes : α → β) (process : α → α) (p : StreamParams)
    (cd : ℚ) (k : ℕ) (sink : ℕ → SinkEnv) :
    ∀ fuel idx frames i cr,
      (runChunksAux tobytes process p cd k sink fuel idx frames).get? i = some cr →
      cr.1.idx = idx + i := by
  intro fuel
  induction fuel with
  | zero =>
    intro idx frames i cr h
    simp [runChunksAux] at h
  | succ fuel ih =>
    intro idx frames i cr h
    simp only [runChunksAux] at h
    split at h
    · simp at h
    · split at h
      · cases i with
        | zero =>
          rw [List.get?_cons_zero, Option.some_inj] at h
          subst h
          simp
        | succ j =>
          rw [List.get?_cons_succ] at h
          have := ih _ _ _ _ h
          omega
      · cases i with
        | zero =>
          rw [List.get?_cons_zero, Option.some_inj] at h
          subst h
          simp
        | succ j =>
          simp at h

theorem runChunksAux_succ_empty {tobytes : α → β} {process : α → α}
    {p : StreamParams} {cd : ℚ} {k : ℕ} {sink : ℕ → SinkEnv} (fuel : ℕ)
    {idx : ℕ} {frames : List α}
    (he : ((frames.take k).map process).isEmpty = true) :
    runChunksAux tobytes process p cd k sink (fuel + 1) idx frames = [] := by
  simp only [runChunksAux]
  rw [if_pos he]

theorem runChunksAux_succ_ok {tobytes : α → β} {process : α → α}
    {p : StreamParams} {cd : ℚ} {k : ℕ} {sink : ℕ → SinkEnv} (fuel : ℕ)
    {idx : ℕ} {frames : List α}
    (he : ((frames.take k).map process).isEmpty = false)
    (hok : (send_chunk tobytes p (sink idx) ((frames.take k).map process)
      ((idx : ℚ) * cd)).ok = true) :
    runChunksAux tobytes process p cd k sink (fuel + 1) idx frames =
      (⟨idx, (idx : ℚ) * cd, (frames.take k).map process⟩,
       send_chunk tobytes p (sink idx) ((frames.take k).map process)
         ((idx : ℚ) * cd)) ::
      runChunksAux tobytes process p cd k sink fuel (idx + 1) (frames.drop k) := by
  simp only [runChunksAux]
  rw [if_neg (by rw [he]; exact Bool.false_ne_true), if_pos hok]

theorem runChunksAux_succ_fail {tobytes : α → β} {process : α → α}
    {p : StreamParams} {cd : ℚ} {k : ℕ} {sink : ℕ → SinkEnv} (fuel : ℕ)
    {idx : ℕ} {frames : List α}
    (he : ((frames.take k).map process).isEmpty = false)
    (hok : (send_chunk tobytes p (sink idx) ((frames.take k).map process)
      ((idx : ℚ) * cd)).ok = false) :
    runChunksAux tobytes process p cd k sink (fuel + 1) idx frames =
      [(⟨idx, (idx : ℚ) * cd, (frames.take k).map process⟩,
        send_chunk tobytes p (sink idx) ((frames.take k).map process)
          ((idx : ℚ) * cd))] := by
  simp only [runChunksAux]
  rw [if_neg (by rw [he]; exact Bool.false_ne_true),
      if_neg (by rw [hok]; exact Bool.false_ne_true)]

theorem run_get?_full (tobytes : α → β) (process : α → α) (p : StreamParams)
    (cd : ℚ) (k : ℕ) (sink : ℕ → SinkEnv) :
    ∀ fuel idx frames i cr cr',
      (runChunksAux tobytes process p cd k sink fuel idx frames).get? i = some cr →
      (runChunksAux tobytes process p cd k sink fuel idx frames).get? (i + 1) = some cr' →
      cr.1.frames.length = k ∧ cr.2.ok = true := by
  intro fuel
  induction fuel with
  | zero =>
    intro idx frames i cr cr' h h'
    simp [runChunksAux] at h
  | succ fuel ih =>
    intro idx frames i cr cr' h h'
    cases he : ((frames.take k).map process).isEmpty with
    | true =>
      rw [runChunksAux_succ_empty fuel he] at h
      simp at h
    | false =>
      cases hok : (send_chunk tobytes p (sink idx) ((frames.take k).map process)
          ((idx : ℚ) * cd)).ok with
      | true =>
        rw [runChunksAux_succ_ok fuel he hok] at h h'
        cases i with
        | zero =>
          rw [List.get?_cons_zero, Option.some_inj] at h
          rw [List.get?_cons_succ] at h'
          subst h
          have hrest : runChunksAux tobytes process p cd k sink fuel (idx + 1)
              (frames.drop k) ≠ [] := by
            intro hnil
            rw [hnil] at h'
            simp at h'
          have hdrop : frames.drop k ≠ [] := by
            intro hdnil
            exact hrest (by rw [hdnil]; exact runChunksAux_nil _ _ _ _ _ _ _ _)
          have hklt : k < frames.length := by
            by_contra hle
            exact hdrop (List.drop_of_length_le (by omega))
          refine ⟨?_, hok⟩
          simp
          omega
        | succ j =>
          rw [List.get?_cons_succ] at h
          rw [List.get?_cons_succ] at h'
          exact ih _ _ _ _ _ h h'
      | false =>
        rw [runChunksAux_succ_fail fuel he hok] at h h'
        cases i with
        | zero => simp at h'
        | succ j => simp at h

theorem run_fail_stops (tobytes : α → β) (process : α → α) (p : StreamParams)
    (cd : ℚ) (k : ℕ) (sink : ℕ → SinkEnv) :
    ∀ fuel idx frames i cr,
      (runChunksAux tobytes process p cd k sink fuel idx frames).get? i = some cr →
      cr.2.ok = false →
      (runChunksAux tobytes process p cd k sink fuel idx frames).get? (i + 1) = none := by
  intro fuel
  induction fuel with
  | zero =>
    intro idx frames i cr h hok
    simp [runChunksAux] at h
  | succ fuel ih =>
    intro idx frames i cr h hok
    cases he : ((frames.take k).map process).isEmpty with
    | true =>
      rw [runChunksAux_succ_empty fuel he] at h
      simp at h
    | false =>
      cases hsent : (send_chunk tobytes p (sink idx) ((frames.take k).map process)
          ((idx : ℚ) * cd)).ok with
      | true =>
        rw [runChunksAux_succ_ok fuel he hsent] at h ⊢
        cases i with
        | zero =>
          rw [List.get?_cons_zero, Option.some_inj] at h
          subst h
          simp only at hok
          rw [hok] at hsent
          exact absurd hsent Bool.false_ne_true
        | succ j =>
          rw [List.get?_cons_succ] at h
          rw [List.get?_cons_succ]
          exact ih _ _ _ _ h hok
      | false =>
        rw [runChunksAux_succ_fail fuel he hsent] at h ⊢
        cases i with
        | zero => rfl
        | succ j => simp at h

theorem send_healthy_ok (tobytes : α → β) (p : StreamParams) (frames : List α)
    (ss : ℚ) (i : ℕ) :
    (send_chunk tobytes p (healthySink i) frames ss).ok = true := by
  simp [healthySink, send_chunk_pipe, feedFrames_none]

theorem send_ok_written (tobytes : α → β) (p : StreamParams) (s : SinkEnv)
    (frames : List α) (ss : ℚ)
    (hok : (send_chunk tobytes p s frames ss).ok = true) :
    (send_chunk tobytes p s frames ss).written = frames.map tobytes := by
  cases s with
  | noExec => simp [send_chunk_noExec] at hok
  | pipe cap =>
    cases cap with
    | none => simp [send_chunk_pipe, feedFrames_none]
    | some c =>
      rw [send_chunk_pipe] at hok ⊢
      rw [feedFrames_some] at hok ⊢
      simp only [Bool.not_eq_true', decide_eq_false_iff_not, Nat.not_lt] at hok
      simp only
      exact List.take_of_length_le (by simpa using hok)

theorem send_written_take (tobytes : α → β) (p : StreamParams) (s : SinkEnv)
    (frames : List α) (ss : ℚ) :
    ∃ m, (send_chunk tobytes p s frames ss).written = (frames.map tobytes).take m := by
  cases s with
  | noExec => exact ⟨0, by simp [send_chunk_noExec]⟩
  | pipe cap =>
    cases cap with
    | none =>
      refine ⟨frames.length, ?_⟩
      simp [send_chunk_pipe, feedFrames_none, List.take_of_length_le]
    | some c =>
      refine ⟨c, ?_⟩
      rw [send_chunk_pipe]
      rw [feedFrames_some]

theorem ceil_div_step (n k : ℕ) (hk : 0 < k) (hn : 0 < n) :
    (n + k - 1) / k = 1 + (n - k + k - 1) / k := by
  have e1 : n + k - 1 = (n - 1) + k := by omega
  rw [e1, Nat.add_div_right _ hk]
  rcases le_or_lt n k with h | h
  · have e2 : n - k = 0 := by omega
    rw [e2]
    rw [Nat.div_eq_of_lt (by omega : n - 1 < k), Nat.div_eq_of_lt (by omega : 0 + k - 1 < k)]
  · have e3 : n - k + k - 1 = n - 1 := by omega
    rw [e3]
    omega

theorem run_flatten_healthy (tobytes : α → β) (process : α → α)
    (p : StreamParams) (cd : ℚ) (k : ℕ) (hk : 0 < k) :
    ∀ fuel idx frames, frames.length ≤ fuel →
      ((runChunksAux tobytes process p cd k healthySink fuel idx frames).map
        (fun cr => cr.1.frames)).flatten = frames.map process := by
  intro fuel
  induction fuel with
  | zero =>
    intro idx frames hlen
    have : frames = [] := List.length_eq_zero.mp (by omega)
    subst this
    simp [runChunksAux]
  | succ fuel ih =>
    intro idx frames hlen
    cases he : ((frames.take k).map process).isEmpty with
    | true =>
      rw [runChunksAux_succ_empty fuel he]
      rw [List.isEmpty_eq_true, List.map_eq_nil_iff, List.take_eq_nil_iff] at he
      rcases he with he | he
      · omega
      · subst he
        simp
    | false =>
      rw [runChunksAux_succ_ok fuel he (send_healthy_ok _ _ _ _ _)]
      have hne : frames ≠ [] := by
        intro hnil
        rw [hnil] at he
        simp at he
      have hlen1 : 0 < frames.length := List.length_pos.mpr hne
      rw [List.map_cons, List.flatten_cons,
          ih (idx + 1) (frames.drop k) (by simp; omega)]
      rw [← List.map_append, List.take_append_drop]

theorem run_length_healthy (tobytes : α → β) (process : α → α)
    (p : StreamParams) (cd : ℚ) (k : ℕ) (hk : 0 < k) :
    ∀ fuel idx frames, frames.length ≤ fuel →
      (runChunksAux tobytes process p cd k healthySink fuel idx frames).length =
        (frames.length + k - 1) / k := by
  intro fuel
  induction fuel with
  | zero =>
    intro idx frames hlen
    have : frames = [] := List.length_eq_zero.mp (by omega)
    subst this
    simp [runChunksAux, Nat.div_eq_of_lt (by omega : k - 1 < k)]
  | succ fuel ih =>
    intro idx frames hlen
    cases he : ((frames.take k).map process).isEmpty with
    | true =>
      rw [runChunksAux_succ_empty fuel he]
      rw [List.isEmpty_eq_true, List.map_eq_nil_iff, List.take_eq_nil_iff] at he
      rcases he with he | he
      · omega
      · subst he
        simp [Nat.div_eq_of_lt (by omega : k - 1 < k)]
    | false =>
      rw [runChunksAux_succ_ok fuel he (send_healthy_ok _ _ _ _ _)]
      have hne : frames ≠ [] := by
        intro hnil
        rw [hnil] at he
        simp at he
      have hlen1 : 0 < frames.length := List.length_pos.mpr hne
      rw [List.length_cons, ih (idx + 1) (frames.drop k) (by simp; omega)]
      rw [List.length_drop]
      rw [ceil_div_step _ _ hk hlen1]
      omega

theorem run_written_healthy (tobytes : α → β) (process : α → α)
    (p : StreamParams) (cd : ℚ) (k : ℕ) (hk : 0 < k) :
    ∀ fuel idx frames, frames.length ≤ fuel →
      ((runChunksAux tobytes process p cd k healthySink fuel idx frames).map
        (fun cr => cr.2.written)).flatten = (frames.map process).map tobytes := by
  intro fuel
  induction fuel with
  | zero =>
    intro idx frames hlen
    have : frames = [] := List.length_eq_zero.mp (by omega)
    subst this
    simp [runChunksAux]
  | succ fuel ih =>
    intro idx frames hlen
    cases he : ((frames.take k).map process).isEmpty with
    | true =>
      rw [runChunksAux_succ_empty fuel he]
      rw [List.isEmpty_eq_true, List.map_eq_nil_iff, List.take_eq_nil_iff] at he
      rcases he with he | he
      · omega
      · subst he
        simp
    | false =>
      rw [runChunksAux_succ_ok fuel he (send_healthy_ok _ _ _ _ _)]
      have hne : frames ≠ [] := by
        intro hnil
        rw [hnil] at he
        simp at he
      have hlen1 : 0 < frames.length := List.length_pos.mpr hne
      rw [List.map_cons, List.flatten_cons,
          ih (idx + 1) (frames.drop k) (by simp; omega)]
      simp only
      rw [send_ok_written _ _ _ _ _ (send_healthy_ok _ _ _ _ _)]
      rw [← List.map_append, ← List.map_append, List.take_append_drop]

theorem build_ts_offset_split (p : StreamParams) (ss dur : ℚ) :
    ∃ pre post, build_chunk_ffmpeg_cmd p ss dur =
      pre ++ [Tok.s "-output_ts_offset", Tok.q ss] ++ post := by
  refine ⟨vidInArgs p ++ audInArgs p ss dur ++ mapArgs p ++ encBaseArgs
    ++ gopArgs p ++ encTailArgs ++ audCodecArgs p, muxArgs p, ?_⟩
  simp [build_chunk_ffmpeg_cmd, tsOffsetArgs, List.append_assoc]

theorem build_audio_split (p : StreamParams) (ap : String)
    (hap : p.audioPath = some ap) (ss dur : ℚ) :
    ∃ pre post, build_chunk_ffmpeg_cmd p ss dur =
      pre ++ [Tok.s "-ss", Tok.q ss, Tok.s "-t", Tok.q dur,
              Tok.s "-i", Tok.s ap] ++ post := by
  refine ⟨vidInArgs p, mapArgs p ++ encBaseArgs ++ gopArgs p ++ encTailArgs
    ++ audCodecArgs p ++ tsOffsetArgs ss ++ muxArgs p, ?_⟩
  simp [build_chunk_ffmpeg_cmd, audInArgs, hap, List.append_assoc]

theorem build_gop_split (p : StreamParams) (ss dur : ℚ) :
    ∃ pre post, build_chunk_ffmpeg_cmd p ss dur =
      pre ++ [Tok.s "-g", Tok.n p.keyframeInterval,
              Tok.s "-keyint_min", Tok.n p.keyframeInterval] ++ post := by
  refine ⟨vidInArgs p ++ audInArgs p ss dur ++ mapArgs p ++ encBaseArgs,
    encTailArgs ++ audCodecArgs p ++ tsOffsetArgs ss ++ muxArgs p, ?_⟩
  simp [build_chunk_ffmpeg_cmd, gopArgs, List.append_assoc]

theorem send_chunk_cmd (tobytes : α → β) (p : StreamParams) (s : SinkEnv)
    (frames : List α) (ss : ℚ) :
    (send_chunk tobytes p s frames ss).cmd =
      build_chunk_ffmpeg_cmd p ss ((frames.length : ℚ) / p.fps) := by
  cases s with
  | noExec => rfl
  | pipe cap => rfl

theorem pacerEmit_tNext (T : ℚ) (s : PacerState) :
    (pacerEmit T s).1.tNext = s.tNext + T := rfl

theorem pacerEmit_time (T : ℚ) (s : PacerState) :
    (pacerEmit T s).2 = max s.clock s.tNext := by
  unfold pacerEmit
  simp only
  split
  · rename_i h
    exact (max_eq_right (by linarith)).symm
  · rename_i h
    exact (max_eq_left (by linarith)).symm

theorem pacerRun_tNext (T : ℚ) :
    ∀ (ds : List ℚ) (s : PacerState),
      (pacerRun T s ds).1.tNext = s.tNext + (ds.length : ℚ) * T := by
  intro ds
  induction ds with
  | nil => intro s; simp [pacerRun]
  | cons d ds ih =>
    intro s
    simp only [pacerRun]
    rw [ih]
    rw [pacerEmit_tNext, List.length_cons]
    push_cast
    ring

theorem pacerRun_length (T : ℚ) :
    ∀ (ds : List ℚ) (s : PacerState),
      (pacerRun T s ds).2.length = ds.length := by
  intro ds
  induction ds with
  | nil => intro s; simp [pacerRun]
  | cons d ds ih => intro s; simp [pacerRun, ih]

theorem pacerRun_emit_ge (T : ℚ) :
    ∀ (ds : List ℚ) (s : PacerState) (i : ℕ) (e : ℚ),
      (pacerRun T s ds).2.get? i = some e →
      s.tNext + (i : ℚ) * T ≤ e := by
  intro ds
  induction ds with
  | nil =>
    intro s i e h
    simp [pacerRun] at h
  | cons d ds ih =>
    intro s i e h
    simp only [pacerRun] at h
    cases i with
    | zero =>
      rw [List.get?_cons_zero, Option.some_inj] at h
      subst h
      rw [pacerEmit_time]
      simp
    | succ j =>
      rw [List.get?_cons_succ] at h
      have := ih _ _ _ h
      rw [pacerEmit_tNext] at this
      have e2 : s.tNext + ((j : ℚ) + 1) * T = s.tNext + T + (j : ℚ) * T := by ring
      push_cast
      rw [e2]
      exact this

theorem run_written_take (tobytes : α → β) (process : α → α) (p : StreamParams)
    (cd : ℚ) (k : ℕ) (sink : ℕ → SinkEnv) :
    ∀ fuel idx frames, ∃ m,
      ((runChunksAux tobytes process p cd k sink fuel idx frames).map
        (fun cr => cr.2.written)).flatten =
        ((frames.map process).map tobytes).take m := by
  intro fuel
  induction fuel with
  | zero =>
    intro idx frames
    exact ⟨0, by simp [runChunksAux]⟩
  | succ fuel ih =>
    intro idx frames
    cases he : ((frames.take k).map process).isEmpty with
    | true =>
      exact ⟨0, by rw [runChunksAux_succ_empty fuel he]; simp⟩
    | false =>
      cases hok : (send_chunk tobytes p (sink idx) ((frames.take k).map process)
          ((idx : ℚ) * cd)).ok with
      | true =>
        obtain ⟨m', hm'⟩ := ih (idx + 1) (frames.drop k)
        refine ⟨k + m', ?_⟩
        rw [runChunksAux_succ_ok fuel he hok]
        rw [List.map_cons, List.flatten_cons, hm']
        simp only
        rw [send_ok_written _ _ _ _ _ hok]
        rw [List.map_take, List.map_take, List.map_drop, List.map_drop]
        rw [List.take_add]
      | false =>
        obtain ⟨m0, hm0⟩ := send_written_take tobytes p (sink idx)
          ((frames.take k).map process) ((idx : ℚ) * cd)
        refine ⟨min m0 k, ?_⟩
        rw [runChunksAux_succ_fail fuel he hok]
        simp only [List.map_cons, List.map_nil, List.flatten_cons,
          List.flatten_nil, List.append_nil]
        rw [hm0]
        rw [List.map_take, List.map_take]
        rw [List.take_take]

theorem mainChunked_go_exit (tobytes : α → β) (process : α → α) (env : Env)
    (frames : List α) (h1 : env.mediaOpens = true)
    (h2 : env.audioPath.isSome = true → env.audioExists = true) :
    (mainChunked tobytes process env frames).1 = 0 := by
  have h3 : (env.audioPath.isSome && !env.audioExists) = false := by
    cases ha : env.audioPath.isSome
    · simp
    · simp [h2 ha]
  simp [mainChunked, h1, h3]

theorem mainChunked_go_run (tobytes : α → β) (process : α → α) (env : Env)
    (frames : List α) (h1 : env.mediaOpens = true)
    (h2 : env.audioPath.isSome = true → env.audioExists = true) :
    (mainChunked tobytes process env frames).2 =
      (let fps := resolveFps env.argsFps env.metaFps
       let run := runChunks tobytes process
         ⟨env.ffmpegPath, env.audioPath, env.width, env.height, fps,
          keyframe_interval_of fps, stream_url env.host env.port⟩
         env.chunkDuration (chunk_frame_count fps env.chunkDuration)
         env.sink frames
       match env.interruptAfter with
       | none => run
       | some j => run.take j) := by
  have h3 : (env.audioPath.isSome && !env.audioExists) = false := by
    cases ha : env.audioPath.isSome
    · simp
    · simp [h2 ha]
  simp [mainChunked, h1, h3]

theorem mainChunked_width_irrelevant (tobytes : α → β) (process : α → α)
    (env : Env) (frames : List α) (w : ℕ) :
    mainChunked tobytes process (withSampleWidth env w) frames =
      mainChunked tobytes process env frames := by
  cases env
  rfl

/-! ### Claim theorems -/

section ClaimProofs

attribute [local semireducible] Rat.mul Rat.inv Rat.add Rat.sub Rat.ofScientific

set_option maxRecDepth 8000

/-- C1 (amended).  The chunked scheduler partitions the frame sequence into
chunks of `max(1, round_half_even(fps × chunk_duration))` frames each — the
code uses Python `round`, not `ceil` — with only the last chunk possibly
shorter; chunk `i` (0-based) has `start_time = i × chunk_duration`; the
chunks concatenate back to the processed frame sequence.  In particular, for
`fps = 30`, `chunk_duration = 5.0` and a 163-frame source the chunks have
sizes `[150, 13]` and start times `[0.0, 5.0]`. -/
theorem c1_chunk_partition :
    (∀ (α β : Type) (tobytes : α → β) (process : α → α) (p : StreamParams)
       (cd : ℚ) (frames : List α) (i : ℕ) (cr : ChunkRec α × SendResult β),
       (runChunks tobytes process p cd (chunk_frame_count p.fps cd)
         healthySink frames).get? i = some cr →
       cr.1.idx = i ∧
       cr.1.startSec = (i : ℚ) * cd ∧
       cr.1.frames ≠ [] ∧
       cr.1.frames.length ≤ chunk_frame_count p.fps cd ∧
       (∀ cr', (runChunks tobytes process p cd (chunk_frame_count p.fps cd)
           healthySink frames).get? (i + 1) = some cr' →
         cr.1.frames.length = chunk_frame_count p.fps cd)) ∧
    (∀ (α β : Type) (tobytes : α → β) (process : α → α) (p : StreamParams)
       (cd : ℚ) (frames : List α),
       ((runChunks tobytes process p cd (chunk_frame_count p.fps cd)
         healthySink frames).map (fun cr => cr.1.frames)).flatten =
         frames.map process) ∧
    ((runChunks (id : ℕ → ℕ) id pDemo 5 (chunk_frame_count 30 5) healthySink
        (List.range 163)).map (fun cr => cr.1.frames.length) = [150, 13] ∧
     (runChunks (id : ℕ → ℕ) id pDemo 5 (chunk_frame_count 30 5) healthySink
        (List.range 163)).map (fun cr => cr.1.startSec) = [0, 5]) := by
  refine ⟨?_, ?_, by decide, by decide⟩
  · intro α β tobytes process p cd frames i cr h
    have hidx : cr.1.idx = 0 + i := run_get?_idx _ _ _ _ _ _ _ _ _ _ _ h
    have hmem := run_mem_spec tobytes process p cd (chunk_frame_count p.fps cd)
      healthySink _ _ _ _ (List.get?_mem h)
    refine ⟨by omega, ?_, hmem.2.1, hmem.2.2.1, ?_⟩
    · rw [hmem.1, hidx]
      norm_num
    · intro cr' h'
      exact (run_get?_full _ _ _ _ _ _ _ _ _ _ _ _ h h').1
  · intro α β tobytes process p cd frames
    exact run_flatten_healthy tobytes process p cd _
      (chunk_frame_count_pos _ _) _ _ frames le_rfl

/-- C1 witness: the amended partition facts instantiated on the two-chunk
run `runW` (1 fps, 1 s chunks, two frames). -/
theorem c1_chunk_partition_witness :
    ∃ cr, runW.get? 0 = some cr ∧
      cr.1.idx = 0 ∧ cr.1.startSec = (0 : ℚ) * 1 ∧ cr.1.frames ≠ [] ∧
      cr.1.frames.length ≤ chunk_frame_count pW.fps 1 := by
  obtain ⟨cr, hcr⟩ : ∃ cr, runW.get? 0 = some cr :=
    Option.isSome_iff_exists.mp (by decide)
  have h := c1_chunk_partition.1 ℕ ℕ id id pW 1 [0, 1] 0 cr hcr
  exact ⟨cr, hcr, h.1, h.2.1, h.2.2.1, h.2.2.2.1⟩

/-- C1 counterexample: the claim's `ceil(fps × chunk_duration)` sizing is
false on the code.  With `fps = 30` and `chunk_duration = 5.01` the code's
chunk size is `round(150.3) = 150`, not `ceil(150.3) = 151`: a 151-frame
source yields chunks `[150, 1]`, not one chunk of 151 frames, so the first
(non-final) chunk does not have `ceil(fps × chunk_duration)` frames. -/
theorem c1_chunk_partition_counterexample :
    ((runChunks (id : ℕ → ℕ) id pDemo (501/100)
        (chunk_frame_count 30 (501/100)) healthySink (List.range 151)).map
      (fun cr => cr.1.frames.length) = [150, 1]) ∧
    Rat.ceil ((30 : ℚ) * (501/100)) = 151 ∧
    ¬((150 : ℕ) = 151) := by
  refine ⟨by decide, by decide, by decide⟩

/-- C2 (amended).  The output timestamp offset passed to chunk `i`'s
transcode session (the value after `-output_ts_offset`) always equals
`i × chunk_duration`.  The continuity equation
`offset(i+1) = offset(i) + frame_count(i)/fps` holds exactly under the extra
assumption `chunk_frame_count / fps = chunk_duration` (true whenever
`fps × chunk_duration` is a positive integer, e.g. the defaults
`fps = 30`, `chunk_duration = 5`), because a full chunk then lasts exactly
`chunk_duration` seconds; for other parameter combinations the code leaves a
gap or overlap (see the counterexample). -/
theorem c2_timestamp_continuity :
    (∀ (α β : Type) (tobytes : α → β) (process : α → α) (p : StreamParams)
       (cd : ℚ) (sink : ℕ → SinkEnv) (frames : List α) (i : ℕ)
       (cr : ChunkRec α × SendResult β),
       (runChunks tobytes process p cd (chunk_frame_count p.fps cd)
         sink frames).get? i = some cr →
       cr.1.startSec = (i : ℚ) * cd ∧
       ∃ pre post, cr.2.cmd =
         pre ++ [Tok.s "-output_ts_offset", Tok.q ((i : ℚ) * cd)] ++ post) ∧
    (∀ (α β : Type) (tobytes : α → β) (process : α → α) (p : StreamParams)
       (cd : ℚ) (sink : ℕ → SinkEnv) (frames : List α),
       ((chunk_frame_count p.fps cd : ℚ) / p.fps = cd) →
       ∀ (i : ℕ) (cr cr' : ChunkRec α × SendResult β),
         (runChunks tobytes process p cd (chunk_frame_count p.fps cd)
           sink frames).get? i = some cr →
         (runChunks tobytes process p cd (chunk_frame_count p.fps cd)
           sink frames).get? (i + 1) = some cr' →
         cr'.1.startSec = cr.1.startSec + (cr.1.frames.length : ℚ) / p.fps) := by
  constructor
  · intro α β tobytes process p cd sink frames i cr h
    have hidx : cr.1.idx = 0 + i := run_get?_idx _ _ _ _ _ _ _ _ _ _ _ h
    have hmem := run_mem_spec tobytes process p cd (chunk_frame_count p.fps cd)
      sink _ _ _ _ (List.get?_mem h)
    have hss : cr.1.startSec = (i : ℚ) * cd := by
      rw [hmem.1, hidx]
      norm_num
    refine ⟨hss, ?_⟩
    have hcmd : cr.2.cmd =
        build_chunk_ffmpeg_cmd p cr.1.startSec
          ((cr.1.frames.length : ℚ) / p.fps) := by
      rw [hmem.2.2.2, send_chunk_cmd]
    rw [hcmd, hss]
    exact build_ts_offset_split _ _ _
  · intro α β tobytes process p cd sink frames hcont i cr cr' h h'
    have hidx : cr.1.idx = 0 + i := run_get?_idx _ _ _ _ _ _ _ _ _ _ _ h
    have hidx' : cr'.1.idx = 0 + (i + 1) := run_get?_idx _ _ _ _ _ _ _ _ _ _ _ h'
    have hmem := run_mem_spec tobytes process p cd (chunk_frame_count p.fps cd)
      sink _ _ _ _ (List.get?_mem h)
    have hmem' := run_mem_spec tobytes process p cd (chunk_frame_count p.fps cd)
      sink _ _ _ _ (List.get?_mem h')
    have hfull : cr.1.frames.length = chunk_frame_count p.fps cd :=
      (run_get?_full _ _ _ _ _ _ _ _ _ _ _ _ h h').1
    rw [hmem.1, hmem'.1, hidx, hidx', hfull, hcont]
    push_cast
    ring

/-- C2 witness: on the two-chunk run `runW` (1 fps, 1 s chunks) the
continuity hypothesis holds and consecutive offsets differ by the first
chunk's actual duration. -/
theorem c2_timestamp_continuity_witness :
    ((chunk_frame_count pW.fps 1 : ℚ) / pW.fps = 1) ∧
    ∃ cr cr', runW.get? 0 = some cr ∧ runW.get? 1 = some cr' ∧
      cr'.1.startSec = cr.1.startSec + (cr.1.frames.length : ℚ) / pW.fps := by
  obtain ⟨cr, hcr⟩ : ∃ cr, runW.get? 0 = some cr :=
    Option.isSome_iff_exists.mp (by decide)
  obtain ⟨cr', hcr'⟩ : ∃ cr', runW.get? 1 = some cr' :=
    Option.isSome_iff_exists.mp (by decide)
  refine ⟨by decide, cr, cr', hcr, hcr', ?_⟩
  exact c2_timestamp_continuity.2 ℕ ℕ id id pW 1 healthySink [0, 1]
    (by decide) 0 cr cr' hcr hcr'

/-- C2 counterexample: with `fps = 4` and `chunk_duration = 0.6` the chunk
size is `round(2.4) = 2`, a full chunk lasts `2/4 = 0.5 s`, yet the second
chunk's declared offset is `0.6`, so
`offset(1) ≠ offset(0) + actual_duration(0)` — a 0.1 s gap.  The offsets are
exactly the `-output_ts_offset` values (token 30 of each audio-less
command). -/
theorem c2_timestamp_continuity_counterexample :
    ((runChunks (id : ℕ → ℕ) id pC2cx (3/5) (chunk_frame_count 4 (3/5))
        healthySink (List.range 4)).map (fun cr => cr.1.startSec) = [0, 3/5]) ∧
    ((runChunks (id : ℕ → ℕ) id pC2cx (3/5) (chunk_frame_count 4 (3/5))
        healthySink (List.range 4)).map (fun cr => cr.1.frames.length) = [2, 2]) ∧
    ((runChunks (id : ℕ → ℕ) id pC2cx (3/5) (chunk_frame_count 4 (3/5))
        healthySink (List.range 4)).map (fun cr => cr.2.cmd.get? 30) =
      [some (Tok.q 0), some (Tok.q (3/5))]) ∧
    ¬((0 : ℚ) + (2 : ℚ) / 4 = 3/5) := by
  refine ⟨by decide, by decide, by decide, by decide⟩

/-- C3 (confirmed).  The pacing loop keeps an absolute schedule: before each
emission it sleeps exactly when the clock is behind `t_next` (emitting at
`max(now, t_next)`, i.e. at `t_next` itself whenever `now < t_next`), it
advances `t_next` by exactly `T` after every emission whether or not it
slept, so after `n` emissions `t_next = t_start + n·T`, and every emission
happens no earlier than its absolute slot `t_start + i·T` — a slow frame
delays only itself, drift does not compound. -/
theorem c3_pacer_absolute_schedule (T c0 t0 : ℚ) (ds : List ℚ) :
    (pacerRun T ⟨c0, t0⟩ ds).1.tNext = t0 + (ds.length : ℚ) * T ∧
    (∀ s : PacerState,
      (pacerEmit T s).1.tNext = s.tNext + T ∧
      (pacerEmit T s).2 = max s.clock s.tNext ∧
      (s.clock < s.tNext → (pacerEmit T s).2 = s.tNext)) ∧
    (pacerRun T ⟨c0, t0⟩ ds).2.length = ds.length ∧
    (∀ (i : ℕ) (e : ℚ), (pacerRun T ⟨c0, t0⟩ ds).2.get? i = some e →
      t0 + (i : ℚ) * T ≤ e) := by
  refine ⟨pacerRun_tNext T ds ⟨c0, t0⟩, ?_, pacerRun_length T ds ⟨c0, t0⟩, ?_⟩
  · intro s
    refine ⟨pacerEmit_tNext T s, pacerEmit_time T s, fun hlt => ?_⟩
    rw [pacerEmit_time]
    exact max_eq_right (le_of_lt hlt)
  · intro i e h
    exact pacerRun_emit_ge T ds ⟨c0, t0⟩ i e h

/-- C3 witness: three frames at `T = 1` where the second frame arrives 2 s
late — the final schedule is still `t_start + 3·T`, and the late frame's
emission respects its absolute slot. -/
theorem c3_pacer_absolute_schedule_witness :
    (pacerRun 1 ⟨0, 0⟩ [0, 2, 0]).1.tNext = 0 + (3 : ℚ) * 1 ∧
    ((0 : ℚ) < 5 → (pacerEmit 1 ⟨0, 5⟩).2 = 5) ∧
    ∃ e, (pacerRun 1 ⟨0, 0⟩ [0, 2, 0]).2.get? 1 = some e ∧ 0 + (1 : ℚ) * 1 ≤ e := by
  obtain ⟨e, he⟩ : ∃ e, (pacerRun 1 ⟨0, 0⟩ [0, 2, 0]).2.get? 1 = some e :=
    Option.isSome_iff_exists.mp (by decide)
  refine ⟨(c3_pacer_absolute_schedule 1 0 0 [0, 2, 0]).1, ?_, e, he, ?_⟩
  · intro h
    exact ((c3_pacer_absolute_schedule 1 0 0 []).2.1 ⟨0, 5⟩).2.2 h
  · exact (c3_pacer_absolute_schedule 1 0 0 [0, 2, 0]).2.2.2 1 e he

/-- C4 (confirmed).  If a chunk's sink pipe breaks after `w` of its frames
(`w < frame count`), the feeding loop stops at the failed write (exactly the
first `w` frames' bytes reach the sink), stdin is closed exactly once, the
external process is awaited rather than killed, `send_chunk` reports the
chunk as failed, and the scheduler launches no further chunk for the rest of
the run. -/
theorem c4_broken_pipe_aborts_run
    (α β : Type) (tobytes : α → β) (process : α → α) (p : StreamParams)
    (cd : ℚ) (sink : ℕ → SinkEnv) (frames : List α) (i w : ℕ)
    (cr : ChunkRec α × SendResult β)
    (h : (runChunks tobytes process p cd (chunk_frame_count p.fps cd)
      sink frames).get? i = some cr)
    (hsink : sink cr.1.idx = SinkEnv.pipe (some w))
    (hw : w < cr.1.frames.length) :
    cr.2.written = (cr.1.frames.map tobytes).take w ∧
    cr.2.closeCount = 1 ∧
    cr.2.waited = true ∧
    cr.2.ok = false ∧
    (runChunks tobytes process p cd (chunk_frame_count p.fps cd)
      sink frames).get? (i + 1) = none := by
  have hmem := run_mem_spec tobytes process p cd (chunk_frame_count p.fps cd)
    sink _ _ _ _ (List.get?_mem h)
  have hr := hmem.2.2.2
  rw [hsink] at hr
  rw [send_chunk_pipe, feedFrames_some] at hr
  have hok : cr.2.ok = false := by
    rw [hr]
    simp [hw]
  refine ⟨?_, ?_, ?_, hok, ?_⟩
  · rw [hr]
  · rw [hr]
  · rw [hr]
  · exact run_fail_stops _ _ _ _ _ _ _ _ _ _ _ h hok

/-- C4 witness: 13 frames at 2 fps in 5 s chunks (10-frame chunks); the
first chunk's pipe breaks after 3 of its 10 frames.  Exactly frames 0–2 are
delivered, stdin is closed once, the process is awaited, the chunk fails,
and no second chunk is launched. -/
theorem c4_broken_pipe_aborts_run_witness :
    run4.get? 0 = some cr4 ∧
    sink4 cr4.1.idx = SinkEnv.pipe (some 3) ∧
    3 < cr4.1.frames.length ∧
    (cr4.2.written = (cr4.1.frames.map id).take 3 ∧
     cr4.2.closeCount = 1 ∧
     cr4.2.waited = true ∧
     cr4.2.ok = false ∧
     run4.get? 1 = none) := by
  refine ⟨by decide, by decide, by decide, ?_⟩
  exact c4_broken_pipe_aborts_run ℕ ℕ id id pW4 5 sink4 (List.range 13) 0 3
    cr4 (by decide) (by decide) (by decide)

/-- C5 (amended).  Exit codes: the chunked program returns 1 exactly for the
two startup checks — unreadable media, configured-but-missing audio file —
and 0 on every other path, including user interrupt, a broken pipe, and a
missing encoder executable (which it treats as a failed chunk, not a
startup failure); audio format is never inspected.  Only the no-chunk
variant returns 1 when the encoder executable is not found. -/
theorem c5_exit_codes :
    (∀ (α β : Type) (tobytes : α → β) (process : α → α) (env : Env)
       (frames : List α), env.mediaOpens = false →
       (mainChunked tobytes process env frames).1 = 1) ∧
    (∀ (α β : Type) (tobytes : α → β) (process : α → α) (env : Env)
       (frames : List α), env.mediaOpens = true →
       env.audioPath.isSome = true → env.audioExists = false →
       (mainChunked tobytes process env frames).1 = 1) ∧
    (∀ (α β : Type) (tobytes : α → β) (process : α → α) (env : Env)
       (frames : List α), env.mediaOpens = true →
       (env.audioPath.isSome = true → env.audioExists = true) →
       (mainChunked tobytes process env frames).1 = 0) ∧
    (∀ env : Env, env.mediaOpens = false → mainNoChunkExit env = 1) ∧
    (∀ env : Env, env.mediaOpens = true → env.audioPath.isSome = true →
       env.audioExists = false → mainNoChunkExit env = 1) ∧
    (∀ env : Env, env.mediaOpens = true →
       (env.audioPath.isSome = true → env.audioExists = true) →
       env.sink 0 = SinkEnv.noExec → mainNoChunkExit env = 1) ∧
    (∀ (env : Env) (cap : Option ℕ), env.mediaOpens = true →
       (env.audioPath.isSome = true → env.audioExists = true) →
       env.sink 0 = SinkEnv.pipe cap → mainNoChunkExit env = 0) := by
  refine ⟨?_, ?_, ?_, ?_, ?_, ?_, ?_⟩
  · intro α β tobytes process env frames h
    simp [mainChunked, h]
  · intro α β tobytes process env frames h1 h2 h3
    simp [mainChunked, h1, h2, h3]
  · intro α β tobytes process env frames h1 h2
    exact mainChunked_go_exit tobytes process env frames h1 h2
  · intro env h
    simp [mainNoChunkExit, h]
  · intro env h1 h2 h3
    simp [mainNoChunkExit, h1, h2, h3]
  · intro env h1 h2 h3
    have h4 : (env.audioPath.isSome && !env.audioExists) = false := by
      cases ha : env.audioPath.isSome
      · simp
      · simp [h2 ha]
    simp [mainNoChunkExit, h1, h4, h3]
  · intro env cap h1 h2 h3
    have h4 : (env.audioPath.isSome && !env.audioExists) = false := by
      cases ha : env.audioPath.isSome
      · simp
      · simp [h2 ha]
    simp [mainNoChunkExit, h1, h4, h3]

/-- C5 witness: the amended exit codes on concrete environments — unreadable
media 1, missing audio 1, healthy chunked run 0, no-chunk run with a missing
encoder 1. -/
theorem c5_exit_codes_witness :
    (mainChunked (id : ℕ → ℕ) id envBadMedia (List.range 1)).1 = 1 ∧
    (mainChunked (id : ℕ → ℕ) id envMissingAudio (List.range 1)).1 = 1 ∧
    (mainChunked (id : ℕ → ℕ) id envAudio8 (List.range 1)).1 = 0 ∧
    mainNoChunkExit envNoExec = 1 := by
  refine ⟨?_, ?_, ?_, ?_⟩
  · exact c5_exit_codes.1 ℕ ℕ id id envBadMedia (List.range 1) (by decide)
  · exact c5_exit_codes.2.1 ℕ ℕ id id envMissingAudio (List.range 1)
      (by decide) (by decide) (by decide)
  · exact c5_exit_codes.2.2.1 ℕ ℕ id id envAudio8 (List.range 1)
      (by decide) (fun _ => by decide)
  · exact c5_exit_codes.2.2.2.2.2.1 envNoExec (by decide)
      (fun h => by simp [envNoExec] at h) (by decide)

/-- C5 counterexample: in the chunked program a missing encoder executable
(`FileNotFoundError` from `Popen`) does not exit with 1: the launch attempt
fails (`ok = false`), the run aborts, and the process still exits 0,
contradicting "exit 1 on every startup-time failure including encoder
executable not found". -/
theorem c5_exit_codes_counterexample :
    (mainChunked (id : ℕ → ℕ) id envNoExec (List.range 3)).1 = 0 ∧
    ((mainChunked (id : ℕ → ℕ) id envNoExec (List.range 3)).2.map
      (fun cr => cr.2.ok) = [false]) ∧
    ¬((0 : ℕ) = 1) := by
  refine ⟨by decide, by decide, by decide⟩

/-- C6 (confirmed).  The bytes delivered to the sink are exactly the
processed frames' bytes in source order: over a whole run they form a
prefix of `map tobytes (map process frames)` (everything up to the point of
a sink failure), and with a sink that never fails they are exactly that
sequence — no reordering, duplication or drop. -/
theorem c6_frame_order_preserved :
    (∀ (α β : Type) (tobytes : α → β) (process : α → α) (p : StreamParams)
       (cd : ℚ) (sink : ℕ → SinkEnv) (frames : List α),
       ∃ m, ((runChunks tobytes process p cd (chunk_frame_count p.fps cd)
           sink frames).map (fun cr => cr.2.written)).flatten =
         ((frames.map process).map tobytes).take m) ∧
    (∀ (α β : Type) (tobytes : α → β) (process : α → α) (p : StreamParams)
       (cd : ℚ) (frames : List α),
       ((runChunks tobytes process p cd (chunk_frame_count p.fps cd)
           healthySink frames).map (fun cr => cr.2.written)).flatten =
         (frames.map process).map tobytes) := by
  constructor
  · intro α β tobytes process p cd sink frames
    exact run_written_take tobytes process p cd _ sink _ _ frames
  · intro α β tobytes process p cd frames
    exact run_written_healthy tobytes process p cd _
      (chunk_frame_count_pos _ _) _ _ frames le_rfl

/-- C7 (confirmed).  For every chunk of a run with audio, the transcode
session's command restricts the audio input to the sub-range starting at
`start_time = i × chunk_duration` with length `actual_duration =
frame_count / fps`: the command equals `build_chunk_ffmpeg_cmd` at exactly
those values, and its audio-input block is
`-ss start_time -t actual_duration -i <audio path>`. -/
theorem c7_audio_subrange
    (α β : Type) (tobytes : α → β) (process : α → α) (p : StreamParams)
    (ap : String) (cd : ℚ) (sink : ℕ → SinkEnv) (frames : List α) (i : ℕ)
    (cr : ChunkRec α × SendResult β)
    (hap : p.audioPath = some ap)
    (h : (runChunks tobytes process p cd (chunk_frame_count p.fps cd)
      sink frames).get? i = some cr) :
    cr.1.startSec = (i : ℚ) * cd ∧
    cr.2.cmd = build_chunk_ffmpeg_cmd p cr.1.startSec
      ((cr.1.frames.length : ℚ) / p.fps) ∧
    ∃ pre post, cr.2.cmd =
      pre ++ [Tok.s "-ss", Tok.q ((i : ℚ) * cd),
              Tok.s "-t", Tok.q ((cr.1.frames.length : ℚ) / p.fps),
              Tok.s "-i", Tok.s ap] ++ post := by
  have hidx : cr.1.idx = 0 + i := run_get?_idx _ _ _ _ _ _ _ _ _ _ _ h
  have hmem := run_mem_spec tobytes process p cd (chunk_frame_count p.fps cd)
    sink _ _ _ _ (List.get?_mem h)
  have hss : cr.1.startSec = (i : ℚ) * cd := by
    rw [hmem.1, hidx]
    norm_num
  have hcmd : cr.2.cmd =
      build_chunk_ffmpeg_cmd p cr.1.startSec
        ((cr.1.frames.length : ℚ) / p.fps) := by
    rw [hmem.2.2.2, send_chunk_cmd]
  refine ⟨hss, hcmd, ?_⟩
  rw [hcmd, hss]
  exact build_audio_split p ap hap _ _

/-- C7 witness: on the audio run `run7` (2 fps, 5 s chunks, 13 frames), the
second chunk's session is instructed to cut audio at `-ss 5`, `-t 3/2`. -/
theorem c7_audio_subrange_witness :
    ∃ cr, run7.get? 1 = some cr ∧
      cr.1.startSec = (1 : ℚ) * 5 ∧
      cr.2.cmd = build_chunk_ffmpeg_cmd pAud cr.1.startSec
        ((cr.1.frames.length : ℚ) / pAud.fps) ∧
      ∃ pre post, cr.2.cmd =
        pre ++ [Tok.s "-ss", Tok.q ((1 : ℚ) * 5),
                Tok.s "-t", Tok.q ((cr.1.frames.length : ℚ) / pAud.fps),
                Tok.s "-i", Tok.s "a.wav"] ++ post := by
  obtain ⟨cr, hcr⟩ : ∃ cr, run7.get? 1 = some cr :=
    Option.isSome_iff_exists.mp (by decide)
  exact ⟨cr, hcr, c7_audio_subrange ℕ ℕ id id pAud "a.wav" 5 healthySink
    (List.range 13) 1 cr rfl hcr⟩

/-- C8 (amended).  The code never inspects the audio sample width: there is
no wave-header read and no `UnsupportedFormat` path.  The behaviour of the
chunked program is entirely independent of the on-disk sample width, and a
run whose audio file merely exists passes startup (exit 0) and streams —
the only audio check at startup is file existence. -/
theorem c8_audio_format_not_checked :
    (∀ (α β : Type) (tobytes : α → β) (process : α → α) (env : Env)
       (frames : List α) (w : ℕ),
       mainChunked tobytes process (withSampleWidth env w) frames =
         mainChunked tobytes process env frames) ∧
    (∀ (α β : Type) (tobytes : α → β) (process : α → α) (env : Env)
       (frames : List α), env.mediaOpens = true →
       env.audioPath.isSome = true → env.audioExists = true →
       (mainChunked tobytes process env frames).1 = 0) := by
  constructor
  · intro α β tobytes process env frames w
    exact mainChunked_width_irrelevant tobytes process env frames w
  · intro α β tobytes process env frames h1 h2 h3
    exact mainChunked_go_exit tobytes process env frames h1 (fun _ => h3)

/-- C8 witness: changing the sample width of `envAudio8`'s audio file leaves
the whole run unchanged, and the run with the existing audio file exits 0. -/
theorem c8_audio_format_not_checked_witness :
    mainChunked (id : ℕ → ℕ) id (withSampleWidth envAudio8 24) (List.range 1) =
      mainChunked (id : ℕ → ℕ) id envAudio8 (List.range 1) ∧
    (mainChunked (id : ℕ → ℕ) id envAudio8 (List.range 1)).1 = 0 := by
  constructor
  · exact c8_audio_format_not_checked.1 ℕ ℕ id id envAudio8 (List.range 1) 24
  · exact c8_audio_format_not_checked.2 ℕ ℕ id id envAudio8 (List.range 1)
      (by decide) (by decide) (by decide)

/-- C8 counterexample: a run whose audio file has 8-bit samples is not
rejected: startup succeeds (exit 0) and a chunk is streamed, contradicting
"startup fails with an UnsupportedFormat error ... exits with code 1 before
any streaming begins". -/
theorem c8_audio_format_not_checked_counterexample :
    envAudio8.audioSampleWidth = 8 ∧
    ¬((8 : ℕ) = 16) ∧
    (mainChunked (id : ℕ → ℕ) id envAudio8 (List.range 3)).1 = 0 ∧
    ((mainChunked (id : ℕ → ℕ) id envAudio8 (List.range 3)).2.map
      (fun cr => cr.1.frames.length) = [3]) := by
  refine ⟨by decide, by decide, by decide, by decide⟩

/-- C9 (amended).  The keyframe interval passed to the encoder (the value
after `-g` and `-keyint_min` in every launched session's command) is
`max(1, round_half_even(fps × 2))`, computed once at startup from the
resolved frame rate — the `max(1, ·)` clamp is part of the code; the value
equals plain `round(fps × 2)` exactly when that rounding is at least 1
(every realistic frame rate). -/
theorem c9_keyframe_interval :
    (∀ (α β : Type) (tobytes : α → β) (process : α → α) (env : Env)
       (frames : List α) (i : ℕ) (cr : ChunkRec α × SendResult β),
       (mainChunked tobytes process env frames).2.get? i = some cr →
       ∃ pre post, cr.2.cmd =
         pre ++ [Tok.s "-g",
                 Tok.n (keyframe_interval_of (resolveFps env.argsFps env.metaFps)),
                 Tok.s "-keyint_min",
                 Tok.n (keyframe_interval_of (resolveFps env.argsFps env.metaFps))]
           ++ post) ∧
    (∀ fps : ℚ, 1 ≤ pyRound (fps * 2) →
       keyframe_interval_of fps = pyRound (fps * 2)) := by
  constructor
  · intro α β tobytes process env frames i cr h
    cases hm : env.mediaOpens with
    | false => simp [mainChunked, hm] at h
    | true =>
      have himp : env.audioPath.isSome = true → env.audioExists = true := by
        intro ha
        cases hex : env.audioExists with
        | true => rfl
        | false =>
          rw [mainChunked, if_neg (by rw [hm]; simp),
            if_pos (by rw [ha, hex]; rfl)] at h
          simp at h
      rw [mainChunked_go_run tobytes process env frames hm himp] at h
      have hmemrun : cr ∈ runChunks tobytes process
          ⟨env.ffmpegPath, env.audioPath, env.width, env.height,
           resolveFps env.argsFps env.metaFps,
           keyframe_interval_of (resolveFps env.argsFps env.metaFps),
           stream_url env.host env.port⟩
          env.chunkDuration
          (chunk_frame_count (resolveFps env.argsFps env.metaFps)
            env.chunkDuration)
          env.sink frames := by
        cases hint : env.interruptAfter with
        | none =>
          rw [hint] at h
          exact List.get?_mem h
        | some j =>
          rw [hint] at h
          exact List.take_subset j _ (List.get?_mem h)
      have hmem := run_mem_spec tobytes process _ env.chunkDuration
        (chunk_frame_count (resolveFps env.argsFps env.metaFps)
          env.chunkDuration) env.sink _ _ _ _ hmemrun
      have hcmd : cr.2.cmd = build_chunk_ffmpeg_cmd
          ⟨env.ffmpegPath, env.audioPath, env.width, env.height,
           resolveFps env.argsFps env.metaFps,
           keyframe_interval_of (resolveFps env.argsFps env.metaFps),
           stream_url env.host env.port⟩
          cr.1.startSec ((cr.1.frames.length : ℚ) /
            resolveFps env.argsFps env.metaFps) := by
        rw [hmem.2.2.2, send_chunk_cmd]
      rw [hcmd]
      exact build_gop_split _ _ _
  · intro fps h
    unfold keyframe_interval_of
    omega

/-- C9 witness: the run of `envAudio8` carries
`-g (keyframe_interval_of 30)` in its only chunk's command, and at 30 fps
the clamp is inactive: `keyframe_interval_of 30 = round(60) = 60`. -/
theorem c9_keyframe_interval_witness :
    (∃ cr, (mainChunked (id : ℕ → ℕ) id envAudio8 (List.range 1)).2.get? 0 =
        some cr ∧
      ∃ pre post, cr.2.cmd =
        pre ++ [Tok.s "-g",
                Tok.n (keyframe_interval_of (resolveFps envAudio8.argsFps
                  envAudio8.metaFps)),
                Tok.s "-keyint_min",
                Tok.n (keyframe_interval_of (resolveFps envAudio8.argsFps
                  envAudio8.metaFps))] ++ post) ∧
    (1 ≤ pyRound ((30 : ℚ) * 2) ∧ keyframe_interval_of 30 = pyRound ((30 : ℚ) * 2)) := by
  constructor
  · obtain ⟨cr, hcr⟩ : ∃ cr,
        (mainChunked (id : ℕ → ℕ) id envAudio8 (List.range 1)).2.get? 0 =
          some cr :=
      Option.isSome_iff_exists.mp (by decide)
    exact ⟨cr, hcr, c9_keyframe_interval.1 ℕ ℕ id id envAudio8
      (List.range 1) 0 cr hcr⟩
  · exact ⟨by decide, c9_keyframe_interval.2 30 (by decide)⟩

/-- C9 counterexample: with `--fps 0.2` the code's keyframe interval is
`max(1, round(0.4)) = 1` while `round(fps × 2) = round(0.4) = 0`; the value
actually passed after `-g` is 1, so the claimed equality with
`round(fps × 2)` fails. -/
theorem c9_keyframe_interval_counterexample :
    keyframe_interval_of (1/5) = 1 ∧
    pyRound ((1/5 : ℚ) * 2) = 0 ∧
    ¬((1 : ℤ) = 0) ∧
    ((mainChunked (id : ℕ → ℕ) id envSlowFps (List.range 1)).2.map
      (fun cr => cr.2.cmd.get? 20) = [some (Tok.n 1)]) := by
  refine ⟨by decide, by decide, by decide, by decide⟩

/-- C10 (confirmed).  The per-chunk frame count is at least 1; every
launched session's chunk is a non-empty frame list, so its
`actual_duration = frame_count / fps` is strictly positive for `fps > 0`;
and with a healthy sink the number of launched sessions is exactly
`⌈total / chunk_frame_count⌉`, so an exact multiple of the chunk size
produces no trailing empty chunk or extra session. -/
theorem c10_no_empty_chunk :
    (∀ fps cd : ℚ, 0 < chunk_frame_count fps cd) ∧
    (∀ (α β : Type) (tobytes : α → β) (process : α → α) (p : StreamParams)
       (cd : ℚ) (sink : ℕ → SinkEnv) (frames : List α)
       (cr : ChunkRec α × SendResult β),
       cr ∈ runChunks tobytes process p cd (chunk_frame_count p.fps cd)
         sink frames →
       cr.1.frames ≠ [] ∧
       (0 < p.fps → 0 < (cr.1.frames.length : ℚ) / p.fps)) ∧
    (∀ (α β : Type) (tobytes : α → β) (process : α → α) (p : StreamParams)
       (cd : ℚ) (frames : List α),
       (runChunks tobytes process p cd (chunk_frame_count p.fps cd)
         healthySink frames).length =
         (frames.length + chunk_frame_count p.fps cd - 1) /
           chunk_frame_count p.fps cd) ∧
    (∀ (α β : Type) (tobytes : α → β) (process : α → α) (p : StreamParams)
       (cd : ℚ) (frames : List α),
       chunk_frame_count p.fps cd ∣ frames.length →
       (runChunks tobytes process p cd (chunk_frame_count p.fps cd)
         healthySink frames).length =
         frames.length / chunk_frame_count p.fps cd) := by
  refine ⟨chunk_frame_count_pos, ?_, ?_, ?_⟩
  · intro α β tobytes process p cd sink frames cr hmem
    have h := run_mem_spec tobytes process p cd (chunk_frame_count p.fps cd)
      sink _ _ _ _ hmem
    refine ⟨h.2.1, fun hfps => ?_⟩
    have hlen : 0 < cr.1.frames.length := List.length_pos.mpr h.2.1
    positivity
  · intro α β tobytes process p cd frames
    exact run_length_healthy tobytes process p cd _
      (chunk_frame_count_pos _ _) _ _ frames le_rfl
  · intro α β tobytes process p cd frames hdvd
    have hlen := run_length_healthy tobytes process p cd _
      (chunk_frame_count_pos p.fps cd) frames.length 0 frames le_rfl
    rw [runChunks, hlen]
    obtain ⟨q, hq⟩ := hdvd
    have hk := chunk_frame_count_pos p.fps cd
    cases q with
    | zero =>
      rw [hq]
      simp [Nat.div_eq_of_lt (by omega : chunk_frame_count p.fps cd - 1 <
        chunk_frame_count p.fps cd)]
    | succ q =>
      rw [hq]
      have e1 : chunk_frame_count p.fps cd * (q + 1) +
          chunk_frame_count p.fps cd - 1 =
          (chunk_frame_count p.fps cd - 1) +
            (q + 1) * chunk_frame_count p.fps cd := by
        ring_nf
        omega
      rw [e1, Nat.add_mul_div_right _ _ hk,
        Nat.div_eq_of_lt (by omega : chunk_frame_count p.fps cd - 1 <
          chunk_frame_count p.fps cd),
        Nat.mul_comm, Nat.mul_div_cancel _ hk]
      omega

/-- C10 witness: a 150-frame source at 30 fps with 5 s chunks (an exact
multiple of the 150-frame chunk size) yields exactly one session, whose
chunk is non-empty with positive duration. -/
theorem c10_no_empty_chunk_witness :
    0 < chunk_frame_count (30 : ℚ) 5 ∧
    (∃ cr, cr ∈ runChunks (id : ℕ → ℕ) id pW 1
        (chunk_frame_count pW.fps 1) healthySink [0, 1] ∧
      cr.1.frames ≠ [] ∧ 0 < (cr.1.frames.length : ℚ) / pW.fps) ∧
    (runChunks (id : ℕ → ℕ) id pDemo 5 (chunk_frame_count pDemo.fps 5)
        healthySink (List.range 150)).length =
      (List.range 150).length / chunk_frame_count pDemo.fps 5 := by
  refine ⟨c10_no_empty_chunk.1 30 5, ?_, ?_⟩
  · obtain ⟨cr, hcr⟩ : ∃ cr, (runChunks (id : ℕ → ℕ) id pW 1
        (chunk_frame_count pW.fps 1) healthySink [0, 1]).get? 0 = some cr :=
      Option.isSome_iff_exists.mp (by decide)
    have hmem := List.get?_mem hcr
    have h := c10_no_empty_chunk.2.1 ℕ ℕ id id pW 1 healthySink [0, 1] cr hmem
    exact ⟨cr, hmem, h.1, h.2 (by decide)⟩
  · exact c10_no_empty_chunk.2.2.2 ℕ ℕ id id pDemo 5 (List.range 150)
      (by decide)

end ClaimProofs
